import Mathlib

/-!
# Shallow embedding of the `data_chain` chain engine

This file embeds the two chain prototypes of the repository and proves the
behaviour of their operations.

* Namespace `SC` models the newer prototype: `src/src/chain/link_descriptor.rs`,
  `src/src/chain/link.rs` and `src/src/chain/section_chain.rs`. The `Vote` and
  `Proof` types of this prototype (`chain/vote.rs`, `chain/proof.rs`) are not in
  the sources, so they are modelled from the specification, as marked on each
  definition.
* Namespace `DC` models the older prototype: `src/src/chain/block_identifier.rs`,
  `src/src/chain/node_block.rs` and `src/src/chain/data_chain.rs`.
* Namespace `OldNodeBlock` models `src/src/node_block.rs`.

Machine conventions: public keys, digests and prefix payloads are naturals;
canonical serialisation of an identifier is modelled by the identifier itself
(the encoding is deterministic and injective); a detached signature is the
symbolic record of the signing key and the signed message, and verification
succeeds exactly when that record matches the presented key and message.
Chain structs keep only the fields the claims touch (`chain`, `group_size`);
the persistence path plays no part in any modelled operation.
-/

/-- Public keys of the detached-signature scheme, modelled as naturals. -/
abbrev PublicKey := Nat

/-- `Iterator::position`: index of the first element satisfying `p`. -/
def listPosition (p : α → Bool) : List α → Option Nat
  | [] => none
  | a :: l => if p a then some 0 else (listPosition p l).map (· + 1)

namespace SC

/-- `chain/link_descriptor.rs`: what caused the group to change. -/
inductive LinkDescriptor where
  | NodeLost (k : PublicKey)
  | NodeGained (k : PublicKey)
  | Split
deriving DecidableEq

/-- `LinkDescriptor::name`. -/
def LinkDescriptor.name : LinkDescriptor → Option PublicKey
  | .NodeLost h => some h
  | .NodeGained h => some h
  | .Split => none

/-- Modelled from the spec: a detached signature (`chain/vote.rs` and
`chain/proof.rs` are missing from the sources). The signature records the
signing key and the canonical bytes of the signed identifier. -/
structure Signature where
  signer : PublicKey
  message : LinkDescriptor
deriving DecidableEq

/-- Modelled from the spec: `Proof` is the pair `(key, sig)`. -/
structure Proof where
  key : PublicKey
  sig : Signature
deriving DecidableEq

/-- Modelled from the spec: `Proof::validate(message)` wraps the signature
verifier, which accepts exactly when the signature was produced by `key`
over `message`. -/
def Proof.validate (p : Proof) (message : LinkDescriptor) : Bool :=
  p.sig == ⟨p.key, message⟩

/-- Modelled from the spec: a `Vote` is a single-signer message
`(identifier, proof)`. -/
structure Vote where
  identifier : LinkDescriptor
  proof : Proof
deriving DecidableEq

/-- Modelled from the spec: `Vote::validate()` checks its own signature over
the canonical bytes of the identifier. -/
def Vote.validate (v : Vote) : Bool :=
  v.proof.validate v.identifier

/-- Modelled from the spec: a vote is self-referential iff the identifier's
membership-change event names the voter's own key. -/
def Vote.is_self_vote (v : Vote) : Bool :=
  match v.identifier.name with
  | some k => k == v.proof.key
  | none => false

/-- `chain/link.rs`: a chain entry of the `SectionChain` prototype
(the struct the file calls `Link` and `section_chain.rs` uses as `Block`). -/
structure Block where
  identifier : LinkDescriptor
  proofs : List Proof
  valid : Bool
deriving DecidableEq

/-- `Link::new`; `none` models the `Err(ChainError::Signature)` branch. -/
def Block.new (vote : Vote) : Option Block :=
  if !vote.validate then none
  else some { identifier := vote.identifier, proofs := [vote.proof], valid := false }

/-- `Link::validate_proof`; serialisation of the identifier never fails in the
model, so only the signature check remains. -/
def Block.validate_proof (b : Block) (proof : Proof) : Bool :=
  proof.validate b.identifier

/-- `Link::add_proof`; `none` models the two `Err` branches. -/
def Block.add_proof (b : Block) (proof : Proof) : Option Block :=
  if !b.validate_proof proof then none
  else if !b.proofs.any (fun x => x.key == proof.key) then
    some { b with proofs := b.proofs ++ [proof] }
  else none

/-- `Link::remove_invalid_signatures`. -/
def Block.remove_invalid_signatures (b : Block) : Block :=
  { b with proofs := b.proofs.filter (fun proof => proof.validate b.identifier) }

/-- `chain/section_chain.rs::SectionChain` (persistence path omitted). -/
structure SectionChain where
  chain : List Block
  group_size : Nat
deriving DecidableEq

/-- `SectionChain::from_blocks`. -/
def SectionChain.from_blocks (blocks : List Block) (group_size : Nat) : SectionChain :=
  { chain := blocks, group_size := group_size }

/-- `SectionChain::validate_block_with_proof`. -/
def SectionChain.validate_block_with_proof (block proof : Block) (group_size : Nat) : Bool :=
  let p_len :=
    (proof.proofs.filter (fun y => block.proofs.any (fun p => p.key == y.key))).length
  decide (proof.proofs.length ≤ p_len * 2) || decide (group_size ≤ p_len)

/-- `SectionChain::valid_links_at_block_id`: previous valid block before the
last occurrence of `block_id` (the chain is scanned in reverse). -/
def SectionChain.valid_links_at_block_id (c : SectionChain) (block_id : LinkDescriptor) :
    Option Block :=
  (((c.chain.reverse.dropWhile (fun x => x.identifier != block_id)).drop 1).find?
    (fun x => x.valid))

/-- The tail of `SectionChain::add_vote`: the existing-block path (move the
matched block to the top of the chain, then reject a duplicate key or add the
proof and re-test validity) and the new-block path. -/
def SectionChain.add_vote_rest (c : SectionChain) (vote : Vote) (links : Option Block) :
    SectionChain × Option LinkDescriptor :=
  match listPosition (fun blk => blk.identifier == vote.identifier) c.chain with
  | some pos =>
    match c.chain[pos]? with
    | some el =>
      let rest := c.chain.eraseIdx pos
      if el.proofs.any (fun x => x.key == vote.proof.key) then
        ({ c with chain := rest ++ [el] }, none)
      else
        -- the source `unwrap`s the result of `add_proof`; the call cannot fail
        -- because the vote's signature was validated on entry and the matched
        -- block carries the vote's identifier
        let blk := (el.add_proof vote.proof).getD el
        let quorum := links.elim false (fun x =>
          (x.identifier != vote.identifier) &&
            SectionChain.validate_block_with_proof blk x c.group_size)
        if quorum then
          ({ c with chain := rest ++ [{ blk with valid := true }] }, some blk.identifier)
        else
          ({ c with chain := rest ++ [{ blk with valid := false }] }, none)
    | none => (c, none)
  | none =>
    match Block.new vote with
    | some blk0 =>
      let blk := if c.chain.length == 1 then { blk0 with valid := true } else blk0
      ({ c with chain := c.chain ++ [blk] }, some blk.identifier)
    | none => (c, none)

/-- `SectionChain::add_vote`: lazy accumulation. The pair is the updated chain
and the source's return value. -/
def SectionChain.add_vote (c : SectionChain) (vote : Vote) :
    SectionChain × Option LinkDescriptor :=
  if !vote.validate then (c, none)
  else
    let links := c.valid_links_at_block_id vote.identifier
    if c.chain.isEmpty then
      match Block.new vote with
      | some blk0 =>
        let blk := { blk0 with valid := true }
        ({ c with chain := c.chain ++ [blk] }, some blk.identifier)
      | none => c.add_vote_rest vote links
    else
      if vote.is_self_vote then (c, none)
      else c.add_vote_rest vote links

/-- `SectionChain::mark_blocks_valid`. The source takes the first block of the
chain as the proving link, walks the chain validating every block against it
(the `let first_link = &block.clone()` inside the loop shadows the outer
variable, so the proving link never advances), and then unconditionally calls
`self.chain.clear()`, so any non-empty chain ends up empty. -/
def SectionChain.mark_blocks_valid (c : SectionChain) : SectionChain :=
  match c.chain.head? with
  | some first_link =>
    let _walked := c.chain.map (fun block =>
      let block := block.remove_invalid_signatures
      if SectionChain.validate_block_with_proof block first_link c.group_size then
        { block with valid := true }
      else
        { block with valid := false })
    { c with chain := [] }
  | none => c

end SC

namespace DC

/-- Digests (32-byte hashes), modelled as naturals. -/
abbrev Digest := Nat

/-- `chain/block_identifier.rs::LinkDescriptor` (older prototype); the
`Prefix` payloads are modelled as naturals. -/
inductive LinkDescriptor where
  | NodeLost (k : PublicKey)
  | CancelNodeLost (k : PublicKey)
  | NodeGained (k : PublicKey)
  | SplitFrom (p : Nat)
  | CancelSplitFrom (p : Nat)
  | MergeTo (p : Nat)
  | CheckPoint (p : Nat)
deriving DecidableEq

/-- `chain/block_identifier.rs::BlockIdentifier`; the `DataIdentifier` of
structured data is modelled by its stable name. -/
inductive BlockIdentifier where
  | ImmutableData (hash : Digest)
  | StructuredData (hash : Digest) (id : Nat)
  | Link (link : LinkDescriptor)
deriving DecidableEq

/-- `BlockIdentifier::is_link`. -/
def BlockIdentifier.is_link : BlockIdentifier → Bool
  | .ImmutableData _ => false
  | .StructuredData _ _ => false
  | .Link _ => true

/-- `BlockIdentifier::is_block`. -/
def BlockIdentifier.is_block : BlockIdentifier → Bool
  | .ImmutableData _ => true
  | .StructuredData _ _ => true
  | .Link _ => false

/-- Modelled from the spec: a detached signature of the older prototype,
recording the signing key and the signed identifier. -/
structure Signature where
  signer : PublicKey
  message : BlockIdentifier
deriving DecidableEq

/-- `chain/node_block.rs::Proof`: pair of key and signature. -/
structure Proof where
  key : PublicKey
  sig : Signature
deriving DecidableEq

/-- Modelled from the spec: well-formedness of a proof against an identifier
(the older prototype's block implementation is not in the sources; §3 of the
spec defines it as `verify(sig, canonical_bytes(i), key)`). -/
def Proof.validate (p : Proof) (identifier : BlockIdentifier) : Bool :=
  p.sig == ⟨p.key, identifier⟩

/-- The older prototype's chain entry as used by `chain/data_chain.rs`:
identifier, proof list (getter `proof()`), and the `valid` flag. -/
structure Block where
  identifier : BlockIdentifier
  proof : List Proof
  valid : Bool
deriving DecidableEq

/-- Modelled from the spec: `remove_invalid_signatures` drops any proof whose
signature does not verify against the block's identifier (§4.3; the older
prototype's block implementation is not in the sources). -/
def Block.remove_invalid_signatures (b : Block) : Block :=
  { b with proof := b.proof.filter (fun p => p.validate b.identifier) }

/-- `chain/data_chain.rs::DataChain` (persistence path omitted). -/
structure DataChain where
  chain : List Block
  group_size : Nat
deriving DecidableEq

/-- `DataChain::from_blocks`. -/
def DataChain.from_blocks (blocks : List Block) (group_size : Nat) : DataChain :=
  { chain := blocks, group_size := group_size }

/-- `DataChain::validate_block_with_proof`: note the strict majority and the
equality against `group_size`, unlike the `SC` version. -/
def DataChain.validate_block_with_proof (block proof : Block) (group_size : Nat) : Bool :=
  let p_len :=
    (proof.proof.filter (fun y => block.proof.any (fun p => p.key == y.key))).length
  decide (proof.proof.length < p_len * 2) || decide (p_len = group_size)

/-- `DataChain::mark_blocks_valid`: the walk of the `for` loop, carrying the
output list and the running proving link. -/
def DataChain.mark_blocks_valid (c : DataChain) : DataChain :=
  match c.chain.find? (fun x => x.identifier.is_link) with
  | some first_link =>
    let result := c.chain.foldl
      (fun (st : List Block × Block) block =>
        let block := block.remove_invalid_signatures
        if DataChain.validate_block_with_proof block st.2 c.group_size then
          let block := { block with valid := true }
          (st.1 ++ [block], if block.identifier.is_link then block else st.2)
        else
          (st.1 ++ [{ block with valid := false }], st.2))
      ([], first_link)
    { c with chain := result.1 }
  | none => { c with chain := [] }

/-- `DataChain::prune`. -/
def DataChain.prune (c : DataChain) : DataChain :=
  let c := c.mark_blocks_valid
  { c with chain := c.chain.filter (fun x => x.valid) }

/-- One iteration of the outer loop of `DataChain::merge_chain`: the inner loop
enumerates `self.chain.iter().skip(start_pos)`, so the position it finds is
relative to the skipped prefix, and the source then uses it as an absolute
insertion index. -/
def DataChain.mergeStep (group_size : Nat) (st : List Block × Nat) (new : Block) :
    List Block × Nat :=
  match listPosition (fun val => DataChain.validate_block_with_proof new val group_size)
      (st.1.drop st.2) with
  | some pos => (st.1.insertIdx pos new, pos + 1)
  | none => (st.1, st.2)

/-- `DataChain::merge_chain`: validate and prune the incoming chain, then fold
its data blocks into `self`. Returns the updated `self` and the mutated
incoming chain. -/
def DataChain.merge_chain (self other : DataChain) : DataChain × DataChain :=
  let o1 := (other.mark_blocks_valid).prune
  let final := (o1.chain.filter (fun x => x.identifier.is_block)).foldl
    (DataChain.mergeStep self.group_size) (self.chain, 0)
  ({ self with chain := final.1 }, o1)

/-- `chain/node_block.rs::create_link_descriptor`: hash of the sorted group
keys, or `none` for an empty group. The SHA3-256 over the concatenated key
bytes is an external primitive and enters the model as the parameter `hash`
applied to the sorted key list. -/
def create_link_descriptor (hash : List PublicKey → Digest) (group : List PublicKey) :
    Option Digest :=
  if group.isEmpty then none
  else some (hash (List.insertionSort (fun a b => a ≤ b) group))

end DC

namespace OldNodeBlock

/-- `src/src/node_block.rs::create_link_descriptor`: byte-wise XOR of the
group keys onto the zero descriptor; 32-byte arrays are modelled as naturals
and byte-wise XOR as bitwise XOR. -/
def create_link_descriptor (group : List PublicKey) : Nat :=
  group.foldl (fun base key => base ^^^ key) 0

end OldNodeBlock

/-! ## Helper lemmas -/

theorem listPosition_eq_some {α : Type} (p : α → Bool) :
    ∀ (l : List α) (i : Nat), listPosition p l = some i →
      ∃ el, l[i]? = some el ∧ p el = true ∧ l.find? p = some el := by
  intro l
  induction l with
  | nil => intro i h; simp [listPosition] at h
  | cons a l ih =>
    intro i h
    by_cases ha : p a
    · simp [listPosition, ha] at h
      exact ⟨a, by simp [h.symm], ha, by simp [List.find?_cons, ha]⟩
    · simp [listPosition, ha] at h
      obtain ⟨j, hj, rfl⟩ := h
      obtain ⟨el, hget, hp, hfind⟩ := ih j hj
      exact ⟨el, by simpa using hget, hp, by simp [List.find?_cons, ha, hfind]⟩

theorem mem_of_getElemQ {α : Type} {l : List α} {i : Nat} {a : α}
    (h : l[i]? = some a) : a ∈ l := by
  obtain ⟨hlt, rfl⟩ := List.getElem?_eq_some.mp h
  exact List.getElem_mem hlt

theorem sublist_insertIdx_self {α : Type} (a : α) :
    ∀ (n : Nat) (l : List α), l.Sublist (l.insertIdx n a) := by
  intro n
  induction n with
  | zero => intro l; rw [List.insertIdx_zero]; exact List.sublist_cons_self a l
  | succ n ih =>
    intro l
    cases l with
    | nil => rw [List.insertIdx_succ_nil]
    | cons x xs => rw [List.insertIdx_succ_cons]; exact (ih xs).cons₂ x

theorem add_proof_eq_some (b : SC.Block) (p : SC.Proof) (b' : SC.Block) :
    b.add_proof p = some b' ↔
      b.validate_proof p = true ∧ b.proofs.any (fun x => x.key == p.key) = false ∧
        b' = { b with proofs := b.proofs ++ [p] } := by
  unfold SC.Block.add_proof
  cases hv : b.validate_proof p with
  | false => simp [hv]
  | true =>
    cases hany : b.proofs.any (fun x => x.key == p.key) with
    | false => simp [hv, hany, eq_comm]
    | true => simp [hv, hany]

instance : RightCommutative (fun (base key : Nat) => base ^^^ key) :=
  ⟨fun b a₁ a₂ => by
    show b ^^^ a₁ ^^^ a₂ = b ^^^ a₂ ^^^ a₁
    rw [Nat.xor_assoc, Nat.xor_assoc, Nat.xor_comm a₁ a₂]⟩

/-! ## Shared concrete sample data -/

/-- A valid `SC` link block signed by keys 4, 5, 6. -/
def sampleSCLink : SC.Block :=
  ⟨.NodeGained 7, [⟨4, ⟨4, .NodeGained 7⟩⟩, ⟨5, ⟨5, .NodeGained 7⟩⟩,
    ⟨6, ⟨6, .NodeGained 7⟩⟩], true⟩

/-- A not-yet-valid `SC` block for `NodeGained 9` with one proof by key 1. -/
def sampleSCTail : SC.Block := ⟨.NodeGained 9, [⟨1, ⟨1, .NodeGained 9⟩⟩], false⟩

/-- A two-block `SC` chain: the valid link, then the accumulating block. -/
def sampleSCChain : SC.SectionChain :=
  SC.SectionChain.from_blocks [sampleSCLink, sampleSCTail] 8

/-- A well-signed, non-self vote by key 2 on the accumulating block's
identifier. -/
def sampleVote : SC.Vote := ⟨.NodeGained 9, ⟨2, ⟨2, .NodeGained 9⟩⟩⟩

/-- A valid `DC` link block signed by key 1. -/
def dcLink1 : DC.Block := ⟨.Link (.NodeGained 7), [⟨1, ⟨1, .Link (.NodeGained 7)⟩⟩], true⟩

/-- Another `DC` link block signed by key 1, initially unvalidated. -/
def dcLink2 : DC.Block := ⟨.Link (.NodeGained 9), [⟨1, ⟨1, .Link (.NodeGained 9)⟩⟩], false⟩

/-- A `DC` data block signed by key 1. -/
def dcData : DC.Block := ⟨.ImmutableData 5, [⟨1, ⟨1, .ImmutableData 5⟩⟩], false⟩

/-- A local `DC` chain holding only its genesis link. -/
def dcSelf : DC.DataChain := DC.DataChain.from_blocks [dcLink1] 8

/-- A foreign `DC` chain: a link and a data block, both signed by key 1. -/
def dcOther : DC.DataChain := DC.DataChain.from_blocks [dcLink2, dcData] 8

/-- A `DC` data block with a single proof by key 1. -/
def sampleDCBlock : DC.Block := ⟨.ImmutableData 1, [⟨1, ⟨1, .ImmutableData 1⟩⟩], false⟩

/-- A `DC` link block with proofs by keys 1 and 2. -/
def sampleDCLink : DC.Block :=
  ⟨.Link (.NodeGained 7), [⟨1, ⟨1, .Link (.NodeGained 7)⟩⟩,
    ⟨2, ⟨2, .Link (.NodeGained 7)⟩⟩], true⟩

/-! ## Claims -/

/-- C1 (counterexample): with `B` holding one proof whose key is among `L`'s
two proofs and `G = 8`, the claim's condition `2·m ≥ N` holds (`2·1 ≥ 2`), yet
`DataChain::validate_block_with_proof` returns `false`, because it requires a
strict majority (`2·m > N`) or exact equality with the group size (`m = G`). -/
theorem c1_counterexample :
    2 * (sampleDCBlock.proof.filter
        (fun p => sampleDCLink.proof.any (fun q => q.key == p.key))).length
      ≥ sampleDCLink.proof.length
    ∧ DC.DataChain.validate_block_with_proof sampleDCBlock sampleDCLink 8 = false := by
  decide

/-- C1 (amended): `SectionChain::validate_block_with_proof` returns true iff
`2·m ≥ N ∨ m ≥ G`, and `DataChain::validate_block_with_proof` returns true iff
`2·m > N ∨ m = G`, where `N` is the size of the proving block's proof set and
`m` counts its proofs whose key also signs the candidate block. -/
theorem c1_admissibility_formulas :
    (∀ (block proof : SC.Block) (group_size : Nat),
      SC.SectionChain.validate_block_with_proof block proof group_size = true ↔
        (proof.proofs.length ≤
            2 * (proof.proofs.filter
              (fun y => block.proofs.any (fun p => p.key == y.key))).length ∨
          group_size ≤ (proof.proofs.filter
              (fun y => block.proofs.any (fun p => p.key == y.key))).length))
    ∧
    (∀ (block proof : DC.Block) (group_size : Nat),
      DC.DataChain.validate_block_with_proof block proof group_size = true ↔
        (proof.proof.length <
            2 * (proof.proof.filter
              (fun y => block.proof.any (fun p => p.key == y.key))).length ∨
          (proof.proof.filter
              (fun y => block.proof.any (fun p => p.key == y.key))).length = group_size)) := by
  constructor
  · intro block proof group_size
    simp only [SC.SectionChain.validate_block_with_proof, Bool.or_eq_true,
      decide_eq_true_eq]
    omega
  · intro block proof group_size
    simp only [DC.DataChain.validate_block_with_proof, Bool.or_eq_true,
      decide_eq_true_eq]
    omega

/-- C3 (evaluation at the failing input): `SectionChain::mark_blocks_valid`
empties a chain holding a single valid link, although the claim (and
`DataChain::mark_blocks_valid`, shown on the other two conjuncts) requires the
membership to be preserved whenever a link exists and the chain to be cleared
exactly when no link exists. -/
theorem c3_mark_blocks_valid_eval :
    (SC.SectionChain.mark_blocks_valid
        (SC.SectionChain.from_blocks [sampleSCLink] 8)).chain = []
    ∧ (DC.DataChain.mark_blocks_valid dcOther).chain.map (fun b => b.identifier)
        = [dcLink2.identifier, dcData.identifier]
    ∧ (DC.DataChain.mark_blocks_valid
        (DC.DataChain.from_blocks [dcData] 8)).chain = [] := by
  decide

/-- C8: both `create_link_descriptor` implementations are invariant under
permutations of the (non-empty) key list: the `chain/node_block.rs` version
hashes the sorted key list, and the `node_block.rs` version folds XOR, which is
commutative and associative. -/
theorem c8_link_descriptor_permutation :
    ∀ (hash : List PublicKey → DC.Digest) (g1 g2 : List PublicKey),
      g1.Perm g2 → g1 ≠ [] →
      DC.create_link_descriptor hash g1 = DC.create_link_descriptor hash g2 ∧
        OldNodeBlock.create_link_descriptor g1 = OldNodeBlock.create_link_descriptor g2 := by
  intro hash g1 g2 hperm hne
  have hne2 : g2 ≠ [] := by
    intro h
    subst h
    exact hne hperm.eq_nil
  constructor
  · have h1 : List.Sorted (fun (a b : PublicKey) => a ≤ b)
        (List.insertionSort (fun a b => a ≤ b) g1) := List.sorted_insertionSort _ g1
    have h2 : List.Sorted (fun (a b : PublicKey) => a ≤ b)
        (List.insertionSort (fun a b => a ≤ b) g2) := List.sorted_insertionSort _ g2
    have hp : (List.insertionSort (fun (a b : PublicKey) => a ≤ b) g1).Perm
        (List.insertionSort (fun a b => a ≤ b) g2) :=
      ((List.perm_insertionSort _ g1).trans hperm).trans
        (List.perm_insertionSort _ g2).symm
    have hsort : List.insertionSort (fun (a b : PublicKey) => a ≤ b) g1
        = List.insertionSort (fun a b => a ≤ b) g2 :=
      List.eq_of_perm_of_sorted hp h1 h2
    simp only [DC.create_link_descriptor, hsort]
    rw [if_neg (by simp [List.isEmpty_iff, hne]), if_neg (by simp [List.isEmpty_iff, hne2])]
  · exact hperm.foldl_eq 0

/-- C8 (witness): the two-element key lists `[2, 1]` and `[1, 2]` are
permutations and yield equal descriptors under both implementations. -/
theorem c8_link_descriptor_permutation_witness :
    DC.create_link_descriptor (fun l => l.foldl (fun a b => a + b) 0) [2, 1]
        = DC.create_link_descriptor (fun l => l.foldl (fun a b => a + b) 0) [1, 2]
      ∧ OldNodeBlock.create_link_descriptor [2, 1]
        = OldNodeBlock.create_link_descriptor [1, 2] :=
  c8_link_descriptor_permutation (fun l => l.foldl (fun a b => a + b) 0) [2, 1] [1, 2]
    (by decide) (by decide)

/-- C9 (counterexample): merging a foreign chain holding an admissible data
block into a local chain whose only block is its genesis link inserts the data
block at index 0, displacing the genesis to index 1. -/
theorem c9_counterexample :
    (DC.DataChain.merge_chain dcSelf dcOther).1.chain[0]? ≠ dcSelf.chain[0]?
    ∧ dcSelf.chain[0]? = some dcLink1
    ∧ (DC.DataChain.merge_chain dcSelf dcOther).1.chain.map (fun b => b.identifier)
        = [dcData.identifier, dcLink1.identifier] := by
  decide

/-- C9 (amended): `merge_chain` never deletes from `self` — the pre-merge
chain survives as a subsequence, in order — but the genesis block need not stay
at index 0, since an incoming block admissible against it is inserted before
it. -/
theorem c9_merge_never_deletes :
    ∀ (self other : DC.DataChain),
      self.chain.Sublist (DC.DataChain.merge_chain self other).1.chain := by
  intro self other
  unfold DC.DataChain.merge_chain
  simp only
  generalize (((other.mark_blocks_valid).prune).chain.filter
    (fun x => x.identifier.is_block)) = news
  have step : ∀ (st : List DC.Block × Nat) (new : DC.Block),
      st.1.Sublist (DC.DataChain.mergeStep self.group_size st new).1 := by
    intro st new
    unfold DC.DataChain.mergeStep
    cases h : listPosition
        (fun val => DC.DataChain.validate_block_with_proof new val self.group_size)
        (st.1.drop st.2) with
    | none => simp
    | some pos => simpa using sublist_insertIdx_self new pos st.1
  have main : ∀ (news : List DC.Block) (st : List DC.Block × Nat),
      st.1.Sublist ((news.foldl (DC.DataChain.mergeStep self.group_size) st).1) := by
    intro news
    induction news with
    | nil => intro st; simp
    | cons new rest ih =>
      intro st
      exact (step st new).trans (ih (DC.DataChain.mergeStep self.group_size st new))
  exact main news (self.chain, 0)

theorem block_new_eq_some (v : SC.Vote) (b : SC.Block) :
    SC.Block.new v = some b ↔ v.validate = true ∧
      b = { identifier := v.identifier, proofs := [v.proof], valid := false } := by
  unfold SC.Block.new
  cases hv : v.validate with
  | false => simp [hv]
  | true => simp [hv, eq_comm]

/-- C4: a self-referential vote on a non-empty chain is rejected with no state
change, while on an empty chain a well-signed vote — self-referential or not —
is accepted as genesis, so self-reference is no ground for rejection there. -/
theorem c4_self_vote_rejection :
    ∀ (c : SC.SectionChain) (v : SC.Vote),
      (c.chain ≠ [] → v.is_self_vote = true → SC.SectionChain.add_vote c v = (c, none))
      ∧ (c.chain = [] → v.validate = true →
          (SC.SectionChain.add_vote c v).2 = some v.identifier) := by
  intro c v
  constructor
  · intro hne hself
    cases hv : v.validate with
    | false => simp [SC.SectionChain.add_vote, hv]
    | true => simp [SC.SectionChain.add_vote, hv, hself, List.isEmpty_iff, hne]
  · intro he hv
    simp [SC.SectionChain.add_vote, hv, he, SC.Block.new]

/-- C4 (witness): on the two-block sample chain the vote `NodeGained 9` signed
by key 9 is rejected as a self-vote; on the empty chain the self-vote
`NodeGained 1` signed by key 1 is accepted. -/
theorem c4_self_vote_rejection_witness :
    SC.SectionChain.add_vote sampleSCChain ⟨.NodeGained 9, ⟨9, ⟨9, .NodeGained 9⟩⟩⟩
        = (sampleSCChain, none)
      ∧ (SC.SectionChain.add_vote (⟨[], 8⟩ : SC.SectionChain)
          ⟨.NodeGained 1, ⟨1, ⟨1, .NodeGained 1⟩⟩⟩).2 = some (.NodeGained 1) :=
  ⟨(c4_self_vote_rejection sampleSCChain ⟨.NodeGained 9, ⟨9, ⟨9, .NodeGained 9⟩⟩⟩).1
      (by decide) (by decide),
    (c4_self_vote_rejection (⟨[], 8⟩ : SC.SectionChain)
      ⟨.NodeGained 1, ⟨1, ⟨1, .NodeGained 1⟩⟩⟩).2 (by decide) (by decide)⟩

/-- C5: on an empty chain a well-signed vote creates a block carrying exactly
the vote's proof, marks it valid (genesis), appends it as the only block, and
returns the new identifier. -/
theorem c5_genesis_accumulation :
    ∀ (c : SC.SectionChain) (v : SC.Vote), c.chain = [] → v.validate = true →
      SC.SectionChain.add_vote c v =
        ({ c with chain := [{ identifier := v.identifier, proofs := [v.proof], valid := true }] },
          some v.identifier) := by
  intro c v he hv
  simp [SC.SectionChain.add_vote, hv, he, SC.Block.new]

/-- C5 (witness): the empty chain accepts `NodeGained 1` signed by key 1 and
becomes the one-block chain holding that valid genesis block. -/
theorem c5_genesis_accumulation_witness :
    SC.SectionChain.add_vote (⟨[], 8⟩ : SC.SectionChain)
        ⟨.NodeGained 1, ⟨1, ⟨1, .NodeGained 1⟩⟩⟩
      = (⟨[⟨.NodeGained 1, [⟨1, ⟨1, .NodeGained 1⟩⟩], true⟩], 8⟩, some (.NodeGained 1)) :=
  c5_genesis_accumulation (⟨[], 8⟩ : SC.SectionChain)
    ⟨.NodeGained 1, ⟨1, ⟨1, .NodeGained 1⟩⟩⟩ (by decide) (by decide)

/-- C6 (counterexample): a duplicate-key vote on the first block of the sample
chain is rejected (`none`) yet the chain is not left identical — the matched
block is moved to the end. -/
theorem c6_counterexample :
    (SC.SectionChain.add_vote sampleSCChain ⟨.NodeGained 7, ⟨4, ⟨4, .NodeGained 7⟩⟩⟩).2
        = none
      ∧ (SC.SectionChain.add_vote sampleSCChain
            ⟨.NodeGained 7, ⟨4, ⟨4, .NodeGained 7⟩⟩⟩).1.chain
          = [sampleSCTail, sampleSCLink]
      ∧ [sampleSCTail, sampleSCLink] ≠ sampleSCChain.chain := by
  decide

/-- C6 (amended): rejections for an invalid signature or a self-vote leave the
chain unchanged, but a duplicate-key rejection, while leaving every block's
contents unchanged, relocates the matched block to the end of the chain. -/
theorem c6_rejection_effects :
    ∀ (c : SC.SectionChain) (v : SC.Vote) (pos : Nat) (el : SC.Block),
      (v.validate = false → SC.SectionChain.add_vote c v = (c, none))
      ∧ (c.chain ≠ [] → v.is_self_vote = true → SC.SectionChain.add_vote c v = (c, none))
      ∧ (c.chain ≠ [] → v.validate = true → v.is_self_vote = false →
          listPosition (fun blk => blk.identifier == v.identifier) c.chain = some pos →
          c.chain[pos]? = some el →
          el.proofs.any (fun x => x.key == v.proof.key) = true →
          SC.SectionChain.add_vote c v
            = ({ c with chain := c.chain.eraseIdx pos ++ [el] }, none)) := by
  intro c v pos el
  refine ⟨?_, ?_, ?_⟩
  · intro hv
    simp [SC.SectionChain.add_vote, hv]
  · intro hne hself
    cases hv : v.validate with
    | false => simp [SC.SectionChain.add_vote, hv]
    | true => simp [SC.SectionChain.add_vote, hv, hself, List.isEmpty_iff, hne]
  · intro hne hv hself hpos hel hdup
    simp [SC.SectionChain.add_vote, hv, hself, List.isEmpty_iff, hne,
      SC.SectionChain.add_vote_rest, hpos, hel, hdup]

/-- C6 (witness): conjunct three applied to the duplicate-key vote on the
sample chain yields rejection together with the reordered chain. -/
theorem c6_rejection_effects_witness :
    SC.SectionChain.add_vote sampleSCChain ⟨.NodeGained 7, ⟨4, ⟨4, .NodeGained 7⟩⟩⟩
      = ({ sampleSCChain with chain := sampleSCChain.chain.eraseIdx 0 ++ [sampleSCLink] },
          none) :=
  (c6_rejection_effects sampleSCChain ⟨.NodeGained 7, ⟨4, ⟨4, .NodeGained 7⟩⟩⟩ 0
      sampleSCLink).2.2
    (by decide) (by decide) (by decide) (by decide) (by decide) (by decide)

/-! ## Branch equations for `add_vote` -/

theorem add_vote_invalid_eq (c : SC.SectionChain) (v : SC.Vote)
    (hv : v.validate = false) :
    SC.SectionChain.add_vote c v = (c, none) := by
  simp [SC.SectionChain.add_vote, hv]

theorem add_vote_selfvote_eq (c : SC.SectionChain) (v : SC.Vote)
    (hne : c.chain ≠ []) (hv : v.validate = true) (hself : v.is_self_vote = true) :
    SC.SectionChain.add_vote c v = (c, none) := by
  simp [SC.SectionChain.add_vote, hv, hself, List.isEmpty_iff, hne]

theorem add_vote_genesis_eq (c : SC.SectionChain) (v : SC.Vote)
    (he : c.chain = []) (hv : v.validate = true) :
    SC.SectionChain.add_vote c v
      = ({ c with chain := [{ identifier := v.identifier, proofs := [v.proof], valid := true }] },
        some v.identifier) := by
  simp [SC.SectionChain.add_vote, hv, he, SC.Block.new]

theorem add_vote_rest_red (c : SC.SectionChain) (v : SC.Vote)
    (hne : c.chain ≠ []) (hv : v.validate = true) (hself : v.is_self_vote = false) :
    SC.SectionChain.add_vote c v
      = SC.SectionChain.add_vote_rest c v (c.valid_links_at_block_id v.identifier) := by
  simp [SC.SectionChain.add_vote, hv, hself, List.isEmpty_iff, hne]

theorem add_vote_rest_dup_eq (c : SC.SectionChain) (v : SC.Vote) (links : Option SC.Block)
    (pos : Nat) (el : SC.Block)
    (hpos : listPosition (fun blk => blk.identifier == v.identifier) c.chain = some pos)
    (hel : c.chain[pos]? = some el)
    (hdup : el.proofs.any (fun x => x.key == v.proof.key) = true) :
    SC.SectionChain.add_vote_rest c v links
      = ({ c with chain := c.chain.eraseIdx pos ++ [el] }, none) := by
  simp [SC.SectionChain.add_vote_rest, hpos, hel, hdup]

theorem add_vote_rest_nodup_valid_eq (c : SC.SectionChain) (v : SC.Vote)
    (links : Option SC.Block) (pos : Nat) (el : SC.Block)
    (hpos : listPosition (fun blk => blk.identifier == v.identifier) c.chain = some pos)
    (hel : c.chain[pos]? = some el)
    (hdup : el.proofs.any (fun x => x.key == v.proof.key) = false)
    (hq : (links.elim false fun x =>
        (x.identifier != v.identifier) &&
          SC.SectionChain.validate_block_with_proof ((el.add_proof v.proof).getD el) x
            c.group_size) = true) :
    SC.SectionChain.add_vote_rest c v links
      = ({ c with chain :=
            c.chain.eraseIdx pos ++ [{ (el.add_proof v.proof).getD el with valid := true }] },
        some ((el.add_proof v.proof).getD el).identifier) := by
  simp [SC.SectionChain.add_vote_rest, hpos, hel, hdup, hq]

theorem add_vote_rest_nodup_invalid_eq (c : SC.SectionChain) (v : SC.Vote)
    (links : Option SC.Block) (pos : Nat) (el : SC.Block)
    (hpos : listPosition (fun blk => blk.identifier == v.identifier) c.chain = some pos)
    (hel : c.chain[pos]? = some el)
    (hdup : el.proofs.any (fun x => x.key == v.proof.key) = false)
    (hq : (links.elim false fun x =>
        (x.identifier != v.identifier) &&
          SC.SectionChain.validate_block_with_proof ((el.add_proof v.proof).getD el) x
            c.group_size) = false) :
    SC.SectionChain.add_vote_rest c v links
      = ({ c with chain :=
            c.chain.eraseIdx pos ++ [{ (el.add_proof v.proof).getD el with valid := false }] },
        none) := by
  simp [SC.SectionChain.add_vote_rest, hpos, hel, hdup, hq]

theorem add_vote_rest_elnone_eq (c : SC.SectionChain) (v : SC.Vote)
    (links : Option SC.Block) (pos : Nat)
    (hpos : listPosition (fun blk => blk.identifier == v.identifier) c.chain = some pos)
    (hel : c.chain[pos]? = none) :
    SC.SectionChain.add_vote_rest c v links = (c, none) := by
  simp [SC.SectionChain.add_vote_rest, hpos, hel]

theorem add_vote_rest_nomatch_eq (c : SC.SectionChain) (v : SC.Vote)
    (links : Option SC.Block) (blk0 : SC.Block)
    (hpos : listPosition (fun blk => blk.identifier == v.identifier) c.chain = none)
    (hnew : SC.Block.new v = some blk0) :
    SC.SectionChain.add_vote_rest c v links
      = ({ c with chain :=
            c.chain ++ [if c.chain.length == 1 then { blk0 with valid := true } else blk0] },
        some blk0.identifier) := by
  by_cases hc : (c.chain.length == 1) = true
  · simp [SC.SectionChain.add_vote_rest, hpos, hnew, hc]
  · simp [SC.SectionChain.add_vote_rest, hpos, hnew, hc]

theorem add_vote_rest_nomatch_none_eq (c : SC.SectionChain) (v : SC.Vote)
    (links : Option SC.Block)
    (hpos : listPosition (fun blk => blk.identifier == v.identifier) c.chain = none)
    (hnew : SC.Block.new v = none) :
    SC.SectionChain.add_vote_rest c v links = (c, none) := by
  simp [SC.SectionChain.add_vote_rest, hpos, hnew]

/-- C10: on a chain of length at least two, a valid non-self vote matching an
existing block always relocates that block to the end of the chain — the
result is the chain with the matched position erased and a block carrying the
same identifier appended — and when the vote is then rejected for a duplicate
key the relocated block is exactly the original one while `none` is
returned, so accumulation does not preserve the chain's order. -/
theorem c10_matched_block_relocation :
    ∀ (c : SC.SectionChain) (v : SC.Vote) (pos : Nat) (el : SC.Block),
      2 ≤ c.chain.length → v.validate = true → v.is_self_vote = false →
      listPosition (fun blk => blk.identifier == v.identifier) c.chain = some pos →
      c.chain[pos]? = some el →
      ∃ b', (SC.SectionChain.add_vote c v).1.chain = c.chain.eraseIdx pos ++ [b']
        ∧ b'.identifier = el.identifier
        ∧ (el.proofs.any (fun x => x.key == v.proof.key) = true →
            b' = el ∧ (SC.SectionChain.add_vote c v).2 = none) := by
  intro c v pos el hlen hv hself hpos hel
  have hne : c.chain ≠ [] := by
    intro h
    rw [h] at hlen
    simp at hlen
  rw [add_vote_rest_red c v hne hv hself]
  cases hdup : el.proofs.any (fun x => x.key == v.proof.key) with
  | true =>
    rw [add_vote_rest_dup_eq c v _ pos el hpos hel hdup]
    exact ⟨el, rfl, rfl, fun _ => ⟨rfl, rfl⟩⟩
  | false =>
    have hid : ((el.add_proof v.proof).getD el).identifier = el.identifier := by
      cases hap : el.add_proof v.proof with
      | none => simp
      | some b2 =>
        have hb2 := (add_proof_eq_some el v.proof b2).mp hap
        simp [hb2.2.2]
    cases hq : ((c.valid_links_at_block_id v.identifier).elim false fun x =>
        (x.identifier != v.identifier) &&
          SC.SectionChain.validate_block_with_proof ((el.add_proof v.proof).getD el) x
            c.group_size) with
    | true =>
      rw [add_vote_rest_nodup_valid_eq c v _ pos el hpos hel hdup hq]
      exact ⟨{ (el.add_proof v.proof).getD el with valid := true }, rfl, hid,
        fun hcon => absurd hcon (by simp [hdup])⟩
    | false =>
      rw [add_vote_rest_nodup_invalid_eq c v _ pos el hpos hel hdup hq]
      exact ⟨{ (el.add_proof v.proof).getD el with valid := false }, rfl, hid,
        fun hcon => absurd hcon (by simp [hdup])⟩

/-- C10 (witness): the vote by key 2 on `NodeGained 9` matches the block at
position 1 of the sample chain and relocates it to the end. -/
theorem c10_matched_block_relocation_witness :
    ∃ b', (SC.SectionChain.add_vote sampleSCChain sampleVote).1.chain
        = sampleSCChain.chain.eraseIdx 1 ++ [b']
      ∧ b'.identifier = sampleSCTail.identifier
      ∧ (sampleSCTail.proofs.any (fun x => x.key == sampleVote.proof.key) = true →
          b' = sampleSCTail ∧ (SC.SectionChain.add_vote sampleSCChain sampleVote).2 = none) :=
  c10_matched_block_relocation sampleSCChain sampleVote 1 sampleSCTail
    (by decide) (by decide) (by decide) (by decide) (by decide)

theorem keys_nodup_append (el : SC.Block) (p : SC.Proof)
    (hnd : (el.proofs.map (fun q => q.key)).Nodup)
    (hany : el.proofs.any (fun x => x.key == p.key) = false) :
    ((el.proofs ++ [p]).map (fun q => q.key)).Nodup := by
  rw [List.map_append, List.nodup_append]
  refine ⟨hnd, by simp, ?_⟩
  intro a ha hb
  have hb' : a = p.key := by simpa using hb
  subst hb'
  rw [List.mem_map] at ha
  obtain ⟨q, hq, hkey⟩ := ha
  have hnone : ¬ ∃ x ∈ el.proofs, (x.key == p.key) = true := by
    rw [← List.any_eq_true, hany]
    simp
  exact hnone ⟨q, hq, by simp [hkey]⟩

theorem add_vote_rest_keys_nodup (c : SC.SectionChain) (v : SC.Vote)
    (links : Option SC.Block)
    (h : ∀ b ∈ c.chain, (b.proofs.map (fun p => p.key)).Nodup) :
    ∀ b ∈ (SC.SectionChain.add_vote_rest c v links).1.chain,
      (b.proofs.map (fun p => p.key)).Nodup := by
  cases hpos : listPosition (fun blk => blk.identifier == v.identifier) c.chain with
  | none =>
    cases hnew : SC.Block.new v with
    | none =>
      rw [add_vote_rest_nomatch_none_eq c v links hpos hnew]
      exact h
    | some blk0 =>
      rw [add_vote_rest_nomatch_eq c v links blk0 hpos hnew]
      intro b hb
      have hb2 : b ∈ c.chain
          ++ [if c.chain.length == 1 then { blk0 with valid := true } else blk0] := hb
      rcases List.mem_append.mp hb2 with h1 | h1
      · exact h b h1
      · have hb' : b = (if c.chain.length == 1 then { blk0 with valid := true } else blk0) := by
          simpa using h1
        have hproofs : b.proofs = blk0.proofs := by
          rw [hb']
          by_cases hc : (c.chain.length == 1) = true <;> simp [hc]
        rw [hproofs, ((block_new_eq_some v blk0).mp hnew).2]
        simp
  | some pos =>
    cases hel : c.chain[pos]? with
    | none =>
      rw [add_vote_rest_elnone_eq c v links pos hpos hel]
      exact h
    | some el =>
      have helmem : el ∈ c.chain := mem_of_getElemQ hel
      have herase : ∀ b ∈ c.chain.eraseIdx pos, (b.proofs.map (fun p => p.key)).Nodup :=
        fun b hb => h b ((List.eraseIdx_sublist c.chain pos).subset hb)
      cases hdup : el.proofs.any (fun x => x.key == v.proof.key) with
      | true =>
        rw [add_vote_rest_dup_eq c v links pos el hpos hel hdup]
        intro b hb
        have hb2 : b ∈ c.chain.eraseIdx pos ++ [el] := hb
        rcases List.mem_append.mp hb2 with h1 | h1
        · exact herase b h1
        · have hb' : b = el := by simpa using h1
          rw [hb']
          exact h el helmem
      | false =>
        have hblknd : (((el.add_proof v.proof).getD el).proofs.map (fun p => p.key)).Nodup := by
          cases hap : el.add_proof v.proof with
          | none => simpa using h el helmem
          | some b2 =>
            have hb2 := (add_proof_eq_some el v.proof b2).mp hap
            rw [Option.getD_some, hb2.2.2]
            exact keys_nodup_append el v.proof (h el helmem) hdup
        cases hq : (links.elim false fun x =>
            (x.identifier != v.identifier) &&
              SC.SectionChain.validate_block_with_proof ((el.add_proof v.proof).getD el) x
                c.group_size) with
        | true =>
          rw [add_vote_rest_nodup_valid_eq c v links pos el hpos hel hdup hq]
          intro b hb
          have hb2 : b ∈ c.chain.eraseIdx pos
              ++ [{ (el.add_proof v.proof).getD el with valid := true }] := hb
          rcases List.mem_append.mp hb2 with h1 | h1
          · exact herase b h1
          · have hb' : b = { (el.add_proof v.proof).getD el with valid := true } := by
              simpa using h1
            rw [hb']
            exact hblknd
        | false =>
          rw [add_vote_rest_nodup_invalid_eq c v links pos el hpos hel hdup hq]
          intro b hb
          have hb2 : b ∈ c.chain.eraseIdx pos
              ++ [{ (el.add_proof v.proof).getD el with valid := false }] := hb
          rcases List.mem_append.mp hb2 with h1 | h1
          · exact herase b h1
          · have hb' : b = { (el.add_proof v.proof).getD el with valid := false } := by
              simpa using h1
            rw [hb']
            exact hblknd

theorem add_vote_keys_nodup (c : SC.SectionChain) (v : SC.Vote)
    (h : ∀ b ∈ c.chain, (b.proofs.map (fun p => p.key)).Nodup) :
    ∀ b ∈ (SC.SectionChain.add_vote c v).1.chain,
      (b.proofs.map (fun p => p.key)).Nodup := by
  cases hv : v.validate with
  | false =>
    rw [add_vote_invalid_eq c v hv]
    exact h
  | true =>
    by_cases he : c.chain = []
    · rw [add_vote_genesis_eq c v he hv]
      intro b hb
      have hb' : b = { identifier := v.identifier, proofs := [v.proof], valid := true } := by
        simpa using hb
      rw [hb']
      simp
    · cases hself : v.is_self_vote with
      | true =>
        rw [add_vote_selfvote_eq c v he hv hself]
        exact h
      | false =>
        rw [add_vote_rest_red c v he hv hself]
        exact add_vote_rest_keys_nodup c v (c.valid_links_at_block_id v.identifier) h

/-- C7: starting from a chain whose blocks all carry key-distinct proof sets,
any sequence of `add_vote` calls preserves the property: no block ever holds
two proofs sharing a public key. -/
theorem c7_proof_key_uniqueness :
    ∀ (votes : List SC.Vote) (c : SC.SectionChain),
      (∀ b ∈ c.chain, (b.proofs.map (fun p => p.key)).Nodup) →
      ∀ b ∈ (votes.foldl (fun s v => (SC.SectionChain.add_vote s v).1) c).chain,
        (b.proofs.map (fun p => p.key)).Nodup := by
  intro votes
  induction votes with
  | nil =>
    intro c h
    simpa using h
  | cons v rest ih =>
    intro c h
    simp only [List.foldl_cons]
    exact ih _ (add_vote_keys_nodup c v h)

/-- C7 (witness): after feeding the sample vote to the sample chain, the
accumulated block for `NodeGained 9` holds key-distinct proofs. -/
theorem c7_proof_key_uniqueness_witness :
    (((⟨.NodeGained 9, [⟨1, ⟨1, .NodeGained 9⟩⟩, ⟨2, ⟨2, .NodeGained 9⟩⟩],
        false⟩ : SC.Block)).proofs.map (fun p => p.key)).Nodup :=
  c7_proof_key_uniqueness [sampleVote] sampleSCChain (by decide) _ (by decide)

/-- C2 (counterexample): the sample vote is well-signed and its proof is
accepted into the matched block (the block's proof set grows to two and the
vote's key is stored), yet `add_vote` returns `none` because the block fails
the quorum re-test — the claim demands `Some` whenever the vote is accepted. -/
theorem c2_counterexample :
    (SC.SectionChain.add_vote sampleSCChain sampleVote).2 = none
      ∧ (SC.SectionChain.add_vote sampleSCChain sampleVote).1.chain.getLast?
          = some ⟨.NodeGained 9, [⟨1, ⟨1, .NodeGained 9⟩⟩, ⟨2, ⟨2, .NodeGained 9⟩⟩], false⟩
      ∧ sampleVote.validate = true := by
  decide

/-- C2 (amended): `add_vote` returns `Some` iff the vote's signature is valid,
it is not rejected as a self-vote, and either a brand-new block was appended
(the chain grows by one) or the matched block both gained the voter's key and
passed the quorum re-test against the proving link; in particular a vote whose
proof is accepted into a matched block that fails the re-test returns
`none`. -/
theorem c2_return_value :
    ∀ (c : SC.SectionChain) (v : SC.Vote),
      (SC.SectionChain.add_vote c v).2.isSome = true ↔
        (v.validate = true ∧ (c.chain = [] ∨ v.is_self_vote = false) ∧
          ((SC.SectionChain.add_vote c v).1.chain.length = c.chain.length + 1
            ∨ ∃ bOld bNew,
                c.chain.find? (fun b => b.identifier == v.identifier) = some bOld ∧
                (SC.SectionChain.add_vote c v).1.chain.getLast? = some bNew ∧
                bNew.identifier = v.identifier ∧
                bNew.valid = true ∧
                (∀ p ∈ bOld.proofs, ¬ p.key = v.proof.key) ∧
                (∃ p ∈ bNew.proofs, p.key = v.proof.key))) := by
  intro c v
  cases hv : v.validate with
  | false =>
    rw [add_vote_invalid_eq c v hv]
    simp [hv]
  | true =>
    by_cases he : c.chain = []
    · rw [add_vote_genesis_eq c v he hv]
      refine iff_of_true rfl ⟨rfl, Or.inl he, Or.inl ?_⟩
      simp [he]
    · cases hself : v.is_self_vote with
      | true =>
        rw [add_vote_selfvote_eq c v he hv hself]
        simp [hself, he]
      | false =>
        rw [add_vote_rest_red c v he hv hself]
        cases hpos : listPosition (fun blk => blk.identifier == v.identifier) c.chain with
        | none =>
          have hnew : SC.Block.new v
              = some { identifier := v.identifier, proofs := [v.proof], valid := false } :=
            (block_new_eq_some v _).mpr ⟨hv, rfl⟩
          rw [add_vote_rest_nomatch_eq c v _ _ hpos hnew]
          refine iff_of_true rfl ⟨rfl, Or.inr rfl, Or.inl ?_⟩
          simp
        | some pos =>
          obtain ⟨el, helq, hpel, hfind⟩ := listPosition_eq_some _ c.chain pos hpos
          have hlt : pos < c.chain.length := (List.getElem?_eq_some.mp helq).1
          have hlenq : ∀ (x : SC.Block),
              (c.chain.eraseIdx pos ++ [x]).length = c.chain.length := by
            intro x
            rw [List.length_append, List.length_eraseIdx]
            simp only [if_pos hlt, List.length_cons, List.length_nil]
            omega
          have hidel : el.identifier = v.identifier := eq_of_beq hpel
          cases hdup : el.proofs.any (fun x => x.key == v.proof.key) with
          | true =>
            rw [add_vote_rest_dup_eq c v _ pos el hpos helq hdup]
            refine iff_of_false (by simp) ?_
            rintro ⟨-, -, hcase | ⟨bOld, bNew, hfind2, hlast, hid2, hval2, hnokey, hhaskey⟩⟩
            · have hcase' : (c.chain.eraseIdx pos ++ [el]).length = c.chain.length + 1 := hcase
              rw [hlenq el] at hcase'
              omega
            · have hbold : bOld = el := by
                rw [hfind] at hfind2
                exact (Option.some.inj hfind2).symm
              subst hbold
              obtain ⟨x, hx, hxk⟩ := List.any_eq_true.mp hdup
              exact hnokey x hx (eq_of_beq hxk)
          | false =>
            have hvalp : el.validate_proof v.proof = true := by
              unfold SC.Block.validate_proof
              rw [hidel]
              exact hv
            have hap : el.add_proof v.proof
                = some { el with proofs := el.proofs ++ [v.proof] } :=
              (add_proof_eq_some el v.proof _).mpr ⟨hvalp, hdup, rfl⟩
            cases hq : ((c.valid_links_at_block_id v.identifier).elim false fun x =>
                (x.identifier != v.identifier) &&
                  SC.SectionChain.validate_block_with_proof ((el.add_proof v.proof).getD el) x
                    c.group_size) with
            | true =>
              rw [add_vote_rest_nodup_valid_eq c v _ pos el hpos helq hdup hq]
              refine iff_of_true rfl
                ⟨rfl, Or.inr rfl, Or.inr ⟨el,
                  { (el.add_proof v.proof).getD el with valid := true },
                  hfind, ?_, ?_, rfl, ?_, ?_⟩⟩
              · exact List.getLast?_concat _
              · show ({ (el.add_proof v.proof).getD el with valid := true }).identifier
                  = v.identifier
                rw [hap]
                simpa using hidel
              · intro p hp hpk
                exact (List.any_eq_false.mp hdup) p hp (by simp [hpk])
              · refine ⟨v.proof, ?_, rfl⟩
                show v.proof ∈ ({ (el.add_proof v.proof).getD el with valid := true }).proofs
                rw [hap]
                simp
            | false =>
              rw [add_vote_rest_nodup_invalid_eq c v _ pos el hpos helq hdup hq]
              refine iff_of_false (by simp) ?_
              rintro ⟨-, -, hcase | ⟨bOld, bNew, hfind2, hlast, hid2, hval2, hnokey, hhaskey⟩⟩
              · have hcase' : (c.chain.eraseIdx pos
                    ++ [{ (el.add_proof v.proof).getD el with valid := false }]).length
                    = c.chain.length + 1 := hcase
                rw [hlenq _] at hcase'
                omega
              · have hlast' : (c.chain.eraseIdx pos
                    ++ [{ (el.add_proof v.proof).getD el with valid := false }]).getLast?
                    = some bNew := hlast
                rw [List.getLast?_concat] at hlast'
                have hbn := Option.some.inj hlast'
                rw [← hbn] at hval2
                simp at hval2
